import Mathlib

/-!
Verification of the hubbmOS image-extraction pipeline specification against
its sources: the dashboard table component (`ImageTable.tsx`), the
orchestration wrapper (`extract_site_images.sh`), and the HubSpot workflow
action, together with spec-modelled definitions for the crawler, the
canonical URL normalizer and the heading-context resolver whose Python
sources are not part of this tree.
-/

namespace HubbmOS

/-! ## The report record schema (`ImageRecord` in ImageTable.tsx) -/

/-- The `ImageRecord` interface from the dashboard source: seven fields, all
of type `string`, declared in the order `page, hubspot_folder, hubspot_path,
src, alt, title, nearest_heading`. -/
structure ImageRecord where
  page : String
  hubspot_folder : String
  hubspot_path : String
  src : String
  alt : String
  title : String
  nearest_heading : String
deriving DecidableEq, Repr

/-- The field names of `ImageRecord`, in declaration order, as they appear in
the dashboard source. -/
def imageRecordFields : List String :=
  ["page", "hubspot_folder", "hubspot_path", "src", "alt", "title",
   "nearest_heading"]

/-- Modelled from the spec: the fixed column order of the report file, whose
writer (`scripts/extract_images.py`) is not part of this tree.  The spec
fixes it as `page, hubspot_folder, hubspot_path, src, alt, title,
nearest_heading`, all string-typed. -/
def reportColumns : List String :=
  ["page", "hubspot_folder", "hubspot_path", "src", "alt", "title",
   "nearest_heading"]

/-- The seven string fields of an `ImageRecord` as a tuple, in declaration
order. -/
def ImageRecord.toTuple (r : ImageRecord) :
    String × String × String × String × String × String × String :=
  (r.page, r.hubspot_folder, r.hubspot_path, r.src, r.alt, r.title,
   r.nearest_heading)

/-- Rebuild an `ImageRecord` from a tuple of seven strings. -/
def ImageRecord.ofTuple
    (t : String × String × String × String × String × String × String) :
    ImageRecord :=
  ⟨t.1, t.2.1, t.2.2.1, t.2.2.2.1, t.2.2.2.2.1, t.2.2.2.2.2.1,
   t.2.2.2.2.2.2⟩

/-! ## The orchestration wrapper (`extract_site_images.sh`) -/

/-- The fixed default site URL of the wrapper (`${1:-...}`). -/
def defaultSiteUrl : String := "https://automation.broadcom.com/"

/-- The fixed mirror directory of the wrapper (`MIRROR_DIR`). -/
def mirrorDirArg : String := "site_mirror"

/-- The fixed report output path of the wrapper (`CSV_OUT`). -/
def csvOutArg : String := "analytics/ui/public/image-report.csv"

/-- Bash `${1:-default}`: the first positional argument, with the default
substituted when the argument is unset or empty. -/
def siteUrlOf (arg1 : Option String) : String :=
  match arg1 with
  | none => defaultSiteUrl
  | some s => if s = "" then defaultSiteUrl else s

/-- The sequence of external commands the wrapper runs, in order, as
(program, argv) pairs, given the optional positional argument.  Transcribed
from `extract_site_images.sh` (the `echo` lines produce no command
invocations). -/
def scriptCommands (arg1 : Option String) : List (String × List String) :=
  [("python3", ["scripts/crawl_site.py", siteUrlOf arg1,
      "--output", mirrorDirArg, "--max-pages", "50", "--delay", "1.5"]),
   ("python3", ["scripts/extract_images.py", mirrorDirArg,
      "--csv-out", csvOutArg, "--verbose"])]

/-- The observable outcome of one run of the wrapper: its exit code and
which of the two steps were invoked. -/
structure ScriptRun where
  exitCode : Nat
  crawlInvoked : Bool
  extractInvoked : Bool
deriving DecidableEq, Repr

/-- Execution of the wrapper under `set -e`, parameterized by the exit code
each step would produce: after a failing command the script aborts with that
command's exit code and runs nothing further. -/
def runScript (crawlExit extractExit : Nat) : ScriptRun :=
  if crawlExit ≠ 0 then
    { exitCode := crawlExit, crawlInvoked := true, extractInvoked := false }
  else if extractExit ≠ 0 then
    { exitCode := extractExit, crawlInvoked := true, extractInvoked := true }
  else
    { exitCode := 0, crawlInvoked := true, extractInvoked := true }

/-! ## The HubSpot workflow action (`exports.main`) -/

/-- The observable outcome of the workflow action: either the thrown error,
or exactly one callback invocation carrying `outputFields.enriched_revenue`. -/
inductive MainOutcome where
  | threw (msg : String)
  | callbackOnce (enriched_revenue : Int)
deriving DecidableEq, Repr

/-- JavaScript truthiness of `event.inputFields['company_domain']`: the
lookup yields `undefined` (`none`) for an absent key, and the empty string is
falsy. -/
def truthy : Option String → Bool
  | none => false
  | some s => !(s == "")

/-- `exports.main`: throw `'Missing company domain'` when the field is not
truthy, otherwise invoke the callback once with
`Math.floor(Math.random() * 1000000)` as `enriched_revenue`; `rand` stands
for the value `Math.random()` returned, a number in `[0, 1)`. -/
def mainAction (inputFields : List (String × String)) (rand : ℚ) :
    MainOutcome :=
  let companyDomain := inputFields.lookup "company_domain"
  if truthy companyDomain then
    MainOutcome.callbackOnce (Int.floor (rand * 1000000))
  else
    MainOutcome.threw "Missing company domain"

/-! ## The dashboard table (`ImageTable`) -/

/-- JavaScript `s || dflt` for string operands: the empty string is falsy. -/
def jsOr (s dflt : String) : String :=
  if s = "" then dflt else s

/-- One rendered table row: the displayed cell texts in column order, and
the href of the trailing `Open` link. -/
structure RenderedRow where
  cells : List String
  linkHref : String
deriving DecidableEq, Repr

/-- The cells a single `ImageRecord` renders to, transcribed from the row
body of `ImageTable`: page verbatim, `hubspot_folder || "—"` in a badge,
`hubspot_path` verbatim, `nearest_heading || "—"`, `alt || "—"`, and the
`Open` link whose href is `src`. -/
def renderRow (image : ImageRecord) : RenderedRow :=
  { cells := [image.page, jsOr image.hubspot_folder "—", image.hubspot_path,
      jsOr image.nearest_heading "—", jsOr image.alt "—", "Open"],
    linkHref := image.src }

/-- The rendered table: header labels from the `columns` list plus the
trailing `Image` header, one row per record in order, and the empty-state
message when there are no records. -/
structure TableView where
  headers : List String
  rows : List RenderedRow
  emptyMessage : Option String
deriving DecidableEq, Repr

/-- The `ImageTable` component as a function of its `images` prop. -/
def imageTable (images : List ImageRecord) : TableView :=
  { headers := ["Page", "HubSpot Folder", "HubSpot Path", "Section Heading",
      "Alt Text", "Image"],
    rows := images.map renderRow,
    emptyMessage :=
      if images.length = 0 then
        some "No images matched the current filters."
      else none }

/-- Ambient application state around a render of the dashboard: the stored
records and any unrelated state. -/
structure PageState where
  records : List ImageRecord
  unrelated : String
deriving DecidableEq, Repr

/-- One render pass of the dashboard page: the component produces its view
from the `images` prop and the application state afterwards; `ImageTable`
assigns to no field of any record. -/
def renderPage (st : PageState) : TableView × PageState :=
  (imageTable st.records, st)

/-! ## Canonical URL Normalizer (spec section 4.1) -/

/-- A parsed URL as the normalizer sees it: scheme, host, path and an
optional fragment.  (Relative-reference resolution against a base happens
before this representation is reached.) -/
structure RawURL where
  scheme : String
  host : String
  path : String
  fragment : Option String
deriving DecidableEq, Repr

/-- The comparable dedup key produced by the normalizer: lower-cased scheme
and host, normalized path, no fragment. -/
structure CanonicalURL where
  scheme : String
  host : String
  path : String
deriving DecidableEq, Repr

/-- Modelled from the spec: ASCII lower-casing of a string, character by
character, used for the scheme and host of a URL. -/
def lowerStr (s : String) : String :=
  String.mk (s.data.map Char.toLower)

/-- Modelled from the spec: remove every trailing slash from a path. -/
def stripSlashes (s : String) : String :=
  String.mk ((s.data.reverse.dropWhile (· == '/')).reverse)

/-- Modelled from the spec: path normalization — trailing slashes removed,
and a bare path collapsed to the root path. -/
def normalizePath (p : String) : String :=
  let q := stripSlashes p
  if q = "" then "/" else q

/-- Modelled from the spec: the Canonical URL Normalizer
(`scripts/crawl_site.py` is not part of this tree).  Rules: lower-case
scheme and host; drop the URL fragment; collapse a bare path to the root
path and normalize trailing slashes. -/
def normalize (u : RawURL) : CanonicalURL :=
  { scheme := lowerStr u.scheme, host := lowerStr u.host,
    path := normalizePath u.path }

/-- Read a canonical key back as a URL (with no fragment), to state that
normalizing twice yields the same key as normalizing once. -/
def CanonicalURL.toRaw (c : CanonicalURL) : RawURL :=
  { scheme := c.scheme, host := c.host, path := c.path, fragment := none }

/-! ## Frontier, Visited Set and Crawler (spec sections 4.2 and 4.3) -/

/-- The crawl context owned by the Crawler: the FIFO frontier of canonical
URLs waiting to be fetched and the append-only visited list of canonical
URLs already enqueued or fetched. -/
structure CrawlState where
  frontier : List CanonicalURL
  visited : List CanonicalURL
deriving DecidableEq, Repr

/-- Modelled from the spec: `enqueue(candidate)` — the candidate is
canonicalized and added only if its host equals the seed host (same-origin
filter), its key is not already in the visited set, and the visited set has
not reached `maxPages`; it is marked visited immediately on enqueue. -/
def enqueue (maxPages : Nat) (seedHost : String) (st : CrawlState)
    (cand : RawURL) : CrawlState :=
  let c := normalize cand
  if c.host = seedHost ∧ c ∉ st.visited ∧ st.visited.length < maxPages then
    { frontier := st.frontier ++ [c], visited := st.visited ++ [c] }
  else st

/-- Enqueue every candidate link discovered on a page, in order. -/
def enqueueAll (maxPages : Nat) (seedHost : String) (st : CrawlState)
    (cands : List RawURL) : CrawlState :=
  cands.foldl (enqueue maxPages seedHost) st

/-- Modelled from the spec: one iteration of the crawl loop — dequeue the
frontier head in FIFO order, fetch it (`fetch` abstracts the links
discovered on the fetched page), and enqueue each discovered candidate.  An
empty frontier leaves the state unchanged. -/
def crawlStep (maxPages : Nat) (seedHost : String)
    (fetch : CanonicalURL → List RawURL) (st : CrawlState) : CrawlState :=
  match st.frontier with
  | [] => st
  | u :: rest => enqueueAll maxPages seedHost ⟨rest, st.visited⟩ (fetch u)

/-- Termination measure for the crawl loop: pages that may still be
enqueued plus pages waiting in the frontier. -/
def crawlMeasure (maxPages : Nat) (st : CrawlState) : Nat :=
  (maxPages - st.visited.length) + st.frontier.length

/-- `enqueue` never increases the crawl measure. -/
theorem crawlMeasure_enqueue_le (maxPages : Nat) (seedHost : String)
    (st : CrawlState) (cand : RawURL) :
    crawlMeasure maxPages (enqueue maxPages seedHost st cand) ≤
      crawlMeasure maxPages st := by
  unfold enqueue
  by_cases h : (normalize cand).host = seedHost ∧
      normalize cand ∉ st.visited ∧ st.visited.length < maxPages
  · rw [if_pos h]
    simp only [crawlMeasure, List.length_append, List.length_cons,
      List.length_nil]
    omega
  · rw [if_neg h]

/-- `enqueueAll` never increases the crawl measure. -/
theorem crawlMeasure_enqueueAll_le (maxPages : Nat) (seedHost : String)
    (st : CrawlState) (cands : List RawURL) :
    crawlMeasure maxPages (enqueueAll maxPages seedHost st cands) ≤
      crawlMeasure maxPages st := by
  induction cands generalizing st with
  | nil => exact Nat.le_refl _
  | cons c cs ih =>
    calc crawlMeasure maxPages
          (enqueueAll maxPages seedHost (enqueue maxPages seedHost st c) cs)
        ≤ crawlMeasure maxPages (enqueue maxPages seedHost st c) := ih _
      _ ≤ crawlMeasure maxPages st :=
          crawlMeasure_enqueue_le maxPages seedHost st c

/-- A step on a non-empty frontier strictly decreases the crawl measure. -/
theorem crawlMeasure_step_lt (maxPages : Nat) (seedHost : String)
    (fetch : CanonicalURL → List RawURL) (st : CrawlState)
    (hne : st.frontier ≠ []) :
    crawlMeasure maxPages (crawlStep maxPages seedHost fetch st) <
      crawlMeasure maxPages st := by
  match hf : st.frontier, hne with
  | u :: rest, _ =>
    have h1 : crawlMeasure maxPages
        (enqueueAll maxPages seedHost ⟨rest, st.visited⟩ (fetch u)) ≤
        crawlMeasure maxPages ⟨rest, st.visited⟩ :=
      crawlMeasure_enqueueAll_le maxPages seedHost _ _
    have h2 : crawlMeasure maxPages (⟨rest, st.visited⟩ : CrawlState) <
        crawlMeasure maxPages st := by
      simp only [crawlMeasure, hf, List.length_cons]
      omega
    calc crawlMeasure maxPages (crawlStep maxPages seedHost fetch st)
        = crawlMeasure maxPages
            (enqueueAll maxPages seedHost ⟨rest, st.visited⟩ (fetch u)) := by
          unfold crawlStep
          rw [hf]
      _ ≤ crawlMeasure maxPages ⟨rest, st.visited⟩ := h1
      _ < crawlMeasure maxPages st := h2

/-- Modelled from the spec: the crawl loop — it terminates as soon as the
frontier is empty or the visited set has reached `maxPages`, and otherwise
performs one step and continues. -/
def crawl (maxPages : Nat) (seedHost : String)
    (fetch : CanonicalURL → List RawURL) (st : CrawlState) : CrawlState :=
  if st.frontier = [] ∨ st.visited.length = maxPages then st
  else crawl maxPages seedHost fetch (crawlStep maxPages seedHost fetch st)
termination_by crawlMeasure maxPages st
decreasing_by
  exact crawlMeasure_step_lt maxPages seedHost fetch st (by tauto)

/-! ## Document model and Heading-Context Resolver (spec sections 3 and 4.5) -/

/-- The parsed document tree: a closed tagged variant with `element` nodes
(tag name, attributes, ordered children) and `text` nodes. -/
inductive DocumentNode where
  | element (tagName : String) (attributes : List (String × String))
      (children : List DocumentNode)
  | text (content : String)
deriving Repr

/-- The heading tag names, levels 1 through 6. -/
def headingTags : List String := ["h1", "h2", "h3", "h4", "h5", "h6"]

/-- Whether a tag name is a heading tag. -/
def isHeadingTag (t : String) : Bool := headingTags.contains t

/-- Whether a tag name is the image tag. -/
def isImageTag (t : String) : Bool := t == "img"

/-- Whether a node is a heading element. -/
def isHeading : DocumentNode → Bool
  | DocumentNode.element t _ _ => isHeadingTag t
  | DocumentNode.text _ => false

/-- Whether a node is an image element. -/
def isImage : DocumentNode → Bool
  | DocumentNode.element t _ _ => isImageTag t
  | DocumentNode.text _ => false

mutual

/-- The concatenated text content of a subtree. -/
def textContent : DocumentNode → String
  | DocumentNode.text s => s
  | DocumentNode.element _ _ cs => textContentList cs

/-- The concatenated text content of a forest. -/
def textContentList : List DocumentNode → String
  | [] => ""
  | c :: cs => textContent c ++ textContentList cs

end

/-- Whitespace trimming of a string: leading and trailing whitespace
characters removed. -/
def trimStr (s : String) : String :=
  String.mk
    (((s.data.dropWhile Char.isWhitespace).reverse.dropWhile
        Char.isWhitespace).reverse)

/-- The trimmed text content of a node: the value a heading contributes. -/
def headingText (n : DocumentNode) : String := trimStr (textContent n)

mutual

/-- Modelled from the spec: the Heading-Context Resolver's single pre-order
walk (`scripts/extract_images.py` is not part of this tree).  It carries the
running "last heading text seen so far"; visiting an image element snapshots
that value, visiting a heading element replaces it with the heading's
trimmed text.  Returns the running value after the subtree together with the
snapshots made inside it, in visit order. -/
def walkNode : String → DocumentNode → String × List String
  | last, DocumentNode.text _ => (last, [])
  | last, DocumentNode.element t _ cs =>
      let snap := if isImageTag t then [last] else []
      let cur := if isHeadingTag t then trimStr (textContentList cs) else last
      let r := walkChildren cur cs
      (r.1, snap ++ r.2)

/-- The walk continued across an ordered list of sibling subtrees. -/
def walkChildren : String → List DocumentNode → String × List String
  | last, [] => (last, [])
  | last, c :: cs =>
      let r1 := walkNode last c
      let r2 := walkChildren r1.1 cs
      (r2.1, r1.2 ++ r2.2)

end

/-- The resolver's output for a document: the `nearestHeading` snapshot of
every image element, in visit order, starting from the empty string. -/
def resolveHeadings (t : DocumentNode) : List String := (walkNode "" t).2

mutual

/-- The pre-order, depth-first node sequence of a tree: each node precedes
its children, children in order. -/
def preorder : DocumentNode → List DocumentNode
  | DocumentNode.element t a cs =>
      DocumentNode.element t a cs :: preorderList cs
  | DocumentNode.text s => [DocumentNode.text s]

/-- The pre-order node sequence of a forest. -/
def preorderList : List DocumentNode → List DocumentNode
  | [] => []
  | c :: cs => preorder c ++ preorderList cs

end

/-- The trimmed text of the last heading among `ns`, or the default `d` when
`ns` contains no heading. -/
def lastHeadingIn (d : String) (ns : List DocumentNode) : String :=
  match (ns.filter isHeading).getLast? with
  | some h => headingText h
  | none => d

/-- The declarative reading of the spec: walking `rest`, where `pre` is the
pre-order prefix already passed, each image contributes the trimmed text of
the nearest heading that precedes it in the whole pre-order sequence (the
default `d` when no heading precedes it). -/
def specSnaps (d : String) (pre : List DocumentNode) :
    List DocumentNode → List String
  | [] => []
  | n :: rest =>
      (if isImage n then [lastHeadingIn d pre] else []) ++
        specSnaps d (pre ++ [n]) rest

/-- The spec's characterization of the resolver output on a document: for
every image element, the trimmed text of the nearest heading element that
precedes it in the pre-order traversal of the whole document, the empty
string when no heading precedes it. -/
def specNearestHeadings (t : DocumentNode) : List String :=
  specSnaps "" [] (preorder t)

/-- The running-value update of the walk, phrased on nodes. -/
def updLast (last : String) (n : DocumentNode) : String :=
  if isHeading n then headingText n else last

/-- The snapshots of a flat pre-order node sequence, by a left fold carrying
the running last-heading value. -/
def foldSnaps (last : String) : List DocumentNode → List String
  | [] => []
  | n :: ns =>
      (if isImage n then [last] else []) ++ foldSnaps (updLast last n) ns

/-- The running last-heading value after a flat node sequence. -/
def lastH (last : String) (ns : List DocumentNode) : String :=
  ns.foldl updLast last

/-- A concrete document from the spec's test properties: an image before any
heading, a heading whose trimmed text is `Our Team`, then an image after it
with non-heading siblings intervening. -/
def ourTeamDoc : DocumentNode :=
  DocumentNode.element "body" []
    [DocumentNode.element "img" [("src", "early.png")] [],
     DocumentNode.element "h2" [] [DocumentNode.text " Our Team "],
     DocumentNode.element "p" [] [DocumentNode.text "blurb"],
     DocumentNode.element "div" []
       [DocumentNode.element "img" [("src", "late.png")] []]]

/-! ## Lemmas about the Canonical URL Normalizer -/

theorem char_toNat_ofNat_valid (n : Nat) (h : Char.isValidCharNat n) :
    (Char.ofNat n).toNat = n := by
  unfold Char.ofNat
  rw [dif_pos h]
  unfold Char.ofNatAux
  simp [Char.toNat, UInt32.ofNat', UInt32.toNat]

theorem char_toLower_toLower (c : Char) :
    c.toLower.toLower = c.toLower := by
  unfold Char.toLower
  by_cases h : c.toNat ≥ 65 ∧ c.toNat ≤ 90
  · rw [if_pos h]
    have hv : Char.isValidCharNat (c.toNat + 32) := by
      unfold Char.isValidCharNat
      omega
    have ht : (Char.ofNat (c.toNat + 32)).toNat = c.toNat + 32 :=
      char_toNat_ofNat_valid _ hv
    rw [ht, if_neg (by omega)]
  · rw [if_neg h, if_neg h]

theorem lowerStr_lowerStr (s : String) : lowerStr (lowerStr s) = lowerStr s := by
  unfold lowerStr
  simp only [List.map_map]
  congr 1
  apply List.map_congr_left
  intro c _
  exact char_toLower_toLower c

theorem dropWhile_dropWhile {α : Type} (p : α → Bool) (l : List α) :
    List.dropWhile p (List.dropWhile p l) = List.dropWhile p l := by
  induction l with
  | nil => rfl
  | cons a l ih =>
    by_cases hp : p a = true
    · simp [List.dropWhile, hp, ih]
    · simp [List.dropWhile, hp]

theorem stripSlashes_stripSlashes (s : String) :
    stripSlashes (stripSlashes s) = stripSlashes s := by
  unfold stripSlashes
  simp only [List.reverse_reverse]
  rw [dropWhile_dropWhile]

theorem stripSlashes_append_slash (s : String) :
    stripSlashes (s ++ "/") = stripSlashes s := by
  unfold stripSlashes
  congr 1
  rw [String.data_append]
  have h1 : ("/" : String).data = ['/'] := rfl
  rw [h1, List.reverse_append]
  simp [List.dropWhile]

theorem normalizePath_normalizePath (p : String) :
    normalizePath (normalizePath p) = normalizePath p := by
  unfold normalizePath
  by_cases h : stripSlashes p = ""
  · rw [if_pos h]
    decide
  · rw [if_neg h, stripSlashes_stripSlashes, if_neg h]

theorem normalizePath_append_slash (p : String) :
    normalizePath (p ++ "/") = normalizePath p := by
  unfold normalizePath
  rw [stripSlashes_append_slash]

/-- C7: URL canonicalization is idempotent — normalizing a normalized URL
yields the same key — and two URLs that differ only in their fragment or by
a trailing slash on the path normalize to the same `CanonicalURL` key. -/
theorem normalize_idempotent_and_insensitive (u : RawURL)
    (f g : Option String) :
    normalize (CanonicalURL.toRaw (normalize u)) = normalize u ∧
    normalize { u with fragment := f } = normalize { u with fragment := g } ∧
    normalize { u with path := u.path ++ "/" } = normalize u := by
  refine ⟨?_, rfl, ?_⟩
  · unfold normalize CanonicalURL.toRaw
    simp only
    rw [lowerStr_lowerStr, lowerStr_lowerStr, normalizePath_normalizePath]
  · unfold normalize
    simp only
    rw [normalizePath_append_slash]

/-! ## Lemmas about the Frontier, Visited Set and Crawler -/

theorem enqueue_visited_le (maxPages : Nat) (seedHost : String)
    (st : CrawlState) (cand : RawURL)
    (h : st.visited.length ≤ maxPages) :
    (enqueue maxPages seedHost st cand).visited.length ≤ maxPages := by
  unfold enqueue
  by_cases hc : (normalize cand).host = seedHost ∧
      normalize cand ∉ st.visited ∧ st.visited.length < maxPages
  · rw [if_pos hc]
    simp only [List.length_append, List.length_cons, List.length_nil]
    omega
  · rw [if_neg hc]
    exact h

theorem enqueueAll_visited_le (maxPages : Nat) (seedHost : String)
    (st : CrawlState) (cands : List RawURL)
    (h : st.visited.length ≤ maxPages) :
    (enqueueAll maxPages seedHost st cands).visited.length ≤ maxPages := by
  induction cands generalizing st with
  | nil => exact h
  | cons c cs ih =>
    exact ih _ (enqueue_visited_le maxPages seedHost st c h)

theorem crawlStep_visited_le (maxPages : Nat) (seedHost : String)
    (fetch : CanonicalURL → List RawURL) (st : CrawlState)
    (h : st.visited.length ≤ maxPages) :
    (crawlStep maxPages seedHost fetch st).visited.length ≤ maxPages := by
  unfold crawlStep
  match st.frontier with
  | [] => exact h
  | u :: rest => exact enqueueAll_visited_le maxPages seedHost _ _ h

theorem crawl_visited_le (maxPages : Nat) (seedHost : String)
    (fetch : CanonicalURL → List RawURL) (st : CrawlState)
    (h : st.visited.length ≤ maxPages) :
    (crawl maxPages seedHost fetch st).visited.length ≤ maxPages := by
  induction st using crawl.induct maxPages seedHost fetch with
  | case1 st hc =>
    rw [crawl, if_pos hc]
    exact h
  | case2 st hc ih =>
    rw [crawl, if_neg hc]
    exact ih (crawlStep_visited_le maxPages seedHost fetch st h)

theorem crawl_stops_at_once (maxPages : Nat) (seedHost : String)
    (fetch : CanonicalURL → List RawURL) (st : CrawlState)
    (h : st.frontier = [] ∨ st.visited.length = maxPages) :
    crawl maxPages seedHost fetch st = st := by
  rw [crawl, if_pos h]

theorem crawl_final_condition (maxPages : Nat) (seedHost : String)
    (fetch : CanonicalURL → List RawURL) (st : CrawlState) :
    (crawl maxPages seedHost fetch st).frontier = [] ∨
      (crawl maxPages seedHost fetch st).visited.length = maxPages := by
  induction st using crawl.induct maxPages seedHost fetch with
  | case1 st hc =>
    rw [crawl, if_pos hc]
    exact hc
  | case2 st hc ih =>
    rw [crawl, if_neg hc]
    exact ih

/-- C4: on every crawl run whose starting state respects the page budget,
the visited set never exceeds `maxPages` — after one loop step, and at every
later step down to the final state — and the crawl terminates as soon as the
frontier is empty or the visited set has reached `maxPages`: it stops
immediately when either condition holds, and its final state satisfies one
of them. -/
theorem crawl_budget_invariant (maxPages : Nat) (seedHost : String)
    (fetch : CanonicalURL → List RawURL) (st : CrawlState)
    (h : st.visited.length ≤ maxPages) :
    (crawlStep maxPages seedHost fetch st).visited.length ≤ maxPages ∧
    (crawl maxPages seedHost fetch st).visited.length ≤ maxPages ∧
    (st.frontier = [] ∨ st.visited.length = maxPages →
      crawl maxPages seedHost fetch st = st) ∧
    ((crawl maxPages seedHost fetch st).frontier = [] ∨
      (crawl maxPages seedHost fetch st).visited.length = maxPages) :=
  ⟨crawlStep_visited_le maxPages seedHost fetch st h,
   crawl_visited_le maxPages seedHost fetch st h,
   fun hc => crawl_stops_at_once maxPages seedHost fetch st hc,
   crawl_final_condition maxPages seedHost fetch st⟩

/-- Witness for C4 at a concrete run: two pages allowed, a seed state with
one visited page, a fetch function discovering one same-origin and one
foreign link. -/
theorem crawl_budget_invariant_witness :
    ((crawlStep 2 "example.com"
        (fun _ => [⟨"https", "example.com", "/about", none⟩,
                   ⟨"https", "other.com", "/x", none⟩])
        ⟨[⟨"https", "example.com", "/"⟩],
         [⟨"https", "example.com", "/"⟩]⟩).visited.length ≤ 2 ∧
     (crawl 2 "example.com"
        (fun _ => [⟨"https", "example.com", "/about", none⟩,
                   ⟨"https", "other.com", "/x", none⟩])
        ⟨[⟨"https", "example.com", "/"⟩],
         [⟨"https", "example.com", "/"⟩]⟩).visited.length ≤ 2 ∧
     ((⟨[⟨"https", "example.com", "/"⟩],
        [⟨"https", "example.com", "/"⟩]⟩ : CrawlState).frontier = [] ∨
      (⟨[⟨"https", "example.com", "/"⟩],
        [⟨"https", "example.com", "/"⟩]⟩ : CrawlState).visited.length = 2 →
      crawl 2 "example.com"
        (fun _ => [⟨"https", "example.com", "/about", none⟩,
                   ⟨"https", "other.com", "/x", none⟩])
        ⟨[⟨"https", "example.com", "/"⟩],
         [⟨"https", "example.com", "/"⟩]⟩ =
        ⟨[⟨"https", "example.com", "/"⟩],
         [⟨"https", "example.com", "/"⟩]⟩) ∧
     ((crawl 2 "example.com"
        (fun _ => [⟨"https", "example.com", "/about", none⟩,
                   ⟨"https", "other.com", "/x", none⟩])
        ⟨[⟨"https", "example.com", "/"⟩],
         [⟨"https", "example.com", "/"⟩]⟩).frontier = [] ∨
      (crawl 2 "example.com"
        (fun _ => [⟨"https", "example.com", "/about", none⟩,
                   ⟨"https", "other.com", "/x", none⟩])
        ⟨[⟨"https", "example.com", "/"⟩],
         [⟨"https", "example.com", "/"⟩]⟩).visited.length = 2)) :=
  crawl_budget_invariant 2 "example.com"
    (fun _ => [⟨"https", "example.com", "/about", none⟩,
               ⟨"https", "other.com", "/x", none⟩])
    ⟨[⟨"https", "example.com", "/"⟩], [⟨"https", "example.com", "/"⟩]⟩
    (by decide)

theorem enqueue_rejects_foreign_host (maxPages : Nat) (seedHost : String)
    (st : CrawlState) (cand : RawURL)
    (h : (normalize cand).host ≠ seedHost) :
    enqueue maxPages seedHost st cand = st := by
  unfold enqueue
  rw [if_neg (fun hc => h hc.1)]

theorem enqueue_host_invariant (maxPages : Nat) (seedHost : String)
    (st : CrawlState) (cand : RawURL)
    (hf : ∀ u ∈ st.frontier, u.host = seedHost)
    (hv : ∀ u ∈ st.visited, u.host = seedHost) :
    (∀ u ∈ (enqueue maxPages seedHost st cand).frontier,
      u.host = seedHost) ∧
    (∀ u ∈ (enqueue maxPages seedHost st cand).visited,
      u.host = seedHost) := by
  unfold enqueue
  by_cases hc : (normalize cand).host = seedHost ∧
      normalize cand ∉ st.visited ∧ st.visited.length < maxPages
  · rw [if_pos hc]
    constructor
    · intro u hu
      rcases List.mem_append.mp hu with h1 | h1
      · exact hf u h1
      · rw [List.mem_singleton.mp h1]
        exact hc.1
    · intro u hu
      rcases List.mem_append.mp hu with h1 | h1
      · exact hv u h1
      · rw [List.mem_singleton.mp h1]
        exact hc.1
  · rw [if_neg hc]
    exact ⟨hf, hv⟩

theorem enqueueAll_host_invariant (maxPages : Nat) (seedHost : String)
    (st : CrawlState) (cands : List RawURL)
    (hf : ∀ u ∈ st.frontier, u.host = seedHost)
    (hv : ∀ u ∈ st.visited, u.host = seedHost) :
    (∀ u ∈ (enqueueAll maxPages seedHost st cands).frontier,
      u.host = seedHost) ∧
    (∀ u ∈ (enqueueAll maxPages seedHost st cands).visited,
      u.host = seedHost) := by
  induction cands generalizing st with
  | nil => exact ⟨hf, hv⟩
  | cons c cs ih =>
    have h1 := enqueue_host_invariant maxPages seedHost st c hf hv
    exact ih _ h1.1 h1.2

theorem crawlStep_host_invariant (maxPages : Nat) (seedHost : String)
    (fetch : CanonicalURL → List RawURL) (st : CrawlState)
    (hf : ∀ u ∈ st.frontier, u.host = seedHost)
    (hv : ∀ u ∈ st.visited, u.host = seedHost) :
    (∀ u ∈ (crawlStep maxPages seedHost fetch st).frontier,
      u.host = seedHost) ∧
    (∀ u ∈ (crawlStep maxPages seedHost fetch st).visited,
      u.host = seedHost) := by
  cases hfr : st.frontier with
  | nil =>
    simp only [crawlStep, hfr]
    exact ⟨fun u hu => absurd hu (List.not_mem_nil u), hv⟩
  | cons u rest =>
    simp only [crawlStep, hfr]
    apply enqueueAll_host_invariant
    · intro v hvmem
      exact hf v (by rw [hfr]; exact List.mem_cons_of_mem u hvmem)
    · exact hv

theorem crawl_host_invariant (maxPages : Nat) (seedHost : String)
    (fetch : CanonicalURL → List RawURL) (st : CrawlState)
    (hf : ∀ u ∈ st.frontier, u.host = seedHost)
    (hv : ∀ u ∈ st.visited, u.host = seedHost) :
    (∀ u ∈ (crawl maxPages seedHost fetch st).frontier,
      u.host = seedHost) ∧
    (∀ u ∈ (crawl maxPages seedHost fetch st).visited,
      u.host = seedHost) := by
  induction st using crawl.induct maxPages seedHost fetch with
  | case1 st hc =>
    rw [crawl, if_pos hc]
    exact ⟨hf, hv⟩
  | case2 st hc ih =>
    rw [crawl, if_neg hc]
    have h1 := crawlStep_host_invariant maxPages seedHost fetch st hf hv
    exact ih h1.1 h1.2

/-- C5: during a crawl from a state whose frontier and visited set contain
only seed-host URLs, a candidate whose canonical host differs from the seed
host is never enqueued (enqueueing it leaves the state unchanged), and every
URL ever present in the frontier or visited set — hence every URL ever
fetched, since fetching dequeues the frontier — has the seed's host. -/
theorem crawl_same_origin (maxPages : Nat) (seedHost : String)
    (fetch : CanonicalURL → List RawURL) (st : CrawlState)
    (hf : ∀ u ∈ st.frontier, u.host = seedHost)
    (hv : ∀ u ∈ st.visited, u.host = seedHost) :
    (∀ cand : RawURL, (normalize cand).host ≠ seedHost →
      enqueue maxPages seedHost st cand = st) ∧
    (∀ u ∈ (crawl maxPages seedHost fetch st).frontier,
      u.host = seedHost) ∧
    (∀ u ∈ (crawl maxPages seedHost fetch st).visited,
      u.host = seedHost) :=
  ⟨fun cand hc => enqueue_rejects_foreign_host maxPages seedHost st cand hc,
   (crawl_host_invariant maxPages seedHost fetch st hf hv).1,
   (crawl_host_invariant maxPages seedHost fetch st hf hv).2⟩

/-- Witness for C5 at a concrete run: seed `example.com`, a fetch function
discovering one same-origin and one foreign link. -/
theorem crawl_same_origin_witness :
    ((∀ cand : RawURL, (normalize cand).host ≠ "example.com" →
      enqueue 5 "example.com"
        ⟨[⟨"https", "example.com", "/"⟩], [⟨"https", "example.com", "/"⟩]⟩
        cand =
        ⟨[⟨"https", "example.com", "/"⟩], [⟨"https", "example.com", "/"⟩]⟩) ∧
     (∀ u ∈ (crawl 5 "example.com"
        (fun _ => [⟨"https", "example.com", "/about", none⟩,
                   ⟨"https", "other.com", "/x", none⟩])
        ⟨[⟨"https", "example.com", "/"⟩],
         [⟨"https", "example.com", "/"⟩]⟩).frontier,
       u.host = "example.com") ∧
     (∀ u ∈ (crawl 5 "example.com"
        (fun _ => [⟨"https", "example.com", "/about", none⟩,
                   ⟨"https", "other.com", "/x", none⟩])
        ⟨[⟨"https", "example.com", "/"⟩],
         [⟨"https", "example.com", "/"⟩]⟩).visited,
       u.host = "example.com")) :=
  crawl_same_origin 5 "example.com"
    (fun _ => [⟨"https", "example.com", "/about", none⟩,
               ⟨"https", "other.com", "/x", none⟩])
    ⟨[⟨"https", "example.com", "/"⟩], [⟨"https", "example.com", "/"⟩]⟩
    (by decide) (by decide)

/-! ## The report record schema, the wrapper, the action, the table -/

/-- C1: the report record schema consists of exactly the seven string-typed
fields `page, hubspot_folder, hubspot_path, src, alt, title,
nearest_heading`, no extra and no non-string or nullable field, matching the
fixed column order of the report file: the field list in declaration order
equals the report column list, there are seven columns, and `ImageRecord` is
in bijection with tuples of seven strings via the field tuple. -/
theorem imageRecord_schema :
    imageRecordFields = reportColumns ∧
    reportColumns.length = 7 ∧
    (∀ r : ImageRecord, ImageRecord.ofTuple r.toTuple = r) ∧
    (∀ t : String × String × String × String × String × String × String,
      (ImageRecord.ofTuple t).toTuple = t) :=
  ⟨rfl, rfl, fun _ => rfl, fun _ => rfl⟩

/-- C2: the wrapper invokes exactly two commands, the crawl step first and
the extract step second, with fixed arguments — mirror directory
`site_mirror`, maximum pages 50, inter-request delay 1.5 — and the fixed
default site URL is used when no positional argument is given. -/
theorem wrapper_sequencing :
    (∀ a : Option String, scriptCommands a =
      [("python3", ["scripts/crawl_site.py", siteUrlOf a,
          "--output", "site_mirror", "--max-pages", "50", "--delay", "1.5"]),
       ("python3", ["scripts/extract_images.py", "site_mirror",
          "--csv-out", "analytics/ui/public/image-report.csv",
          "--verbose"])]) ∧
    siteUrlOf none = "https://automation.broadcom.com/" :=
  ⟨fun _ => rfl, rfl⟩

/-- C3: under `set -e`, when the crawl step fails the run aborts with that
step's non-zero exit code and the extract step is never invoked; the extract
step is invoked when the crawl step succeeds, whatever the extract step's
own exit code. -/
theorem wrapper_aborts_on_crawl_failure (crawlExit extractExit : Nat)
    (h : crawlExit ≠ 0) :
    (runScript crawlExit extractExit).exitCode = crawlExit ∧
    (runScript crawlExit extractExit).exitCode ≠ 0 ∧
    (runScript crawlExit extractExit).extractInvoked = false ∧
    (runScript 0 extractExit).extractInvoked = true := by
  unfold runScript
  rw [if_pos h]
  refine ⟨rfl, h, rfl, ?_⟩
  by_cases he : extractExit ≠ 0
  · rw [if_neg (by omega), if_pos he]
  · rw [if_neg (by omega), if_neg he]

/-- Witness for C3: the crawl step exits 1, the extract step would exit 0. -/
theorem wrapper_aborts_on_crawl_failure_witness :
    ((runScript 1 0).exitCode = 1 ∧
     (runScript 1 0).exitCode ≠ 0 ∧
     (runScript 1 0).extractInvoked = false ∧
     (runScript 0 0).extractInvoked = true) :=
  wrapper_aborts_on_crawl_failure 1 0 (by decide)

/-- C8: the dashboard table is a pure consumer of the report — a render
pass leaves the application state, and with it every field of every input
record, unchanged; the view is `imageTable` of the records; and the view is
determined solely by the `images` prop, so two states agreeing on the
records render identically. -/
theorem imageTable_pure_consumer (st st2 : PageState)
    (h : st.records = st2.records) :
    (renderPage st).2 = st ∧
    (renderPage st).1 = imageTable st.records ∧
    (renderPage st).1 = (renderPage st2).1 ∧
    (imageTable st.records).rows = st.records.map renderRow := by
  refine ⟨rfl, rfl, ?_, rfl⟩
  unfold renderPage
  rw [h]

/-- Witness for C8: two page states with the same single record but
different unrelated state render identically and are left unchanged. -/
theorem imageTable_pure_consumer_witness :
    ((renderPage ⟨[⟨"p", "f", "pa", "s", "a", "t", "n"⟩], "x"⟩).2 =
        ⟨[⟨"p", "f", "pa", "s", "a", "t", "n"⟩], "x"⟩ ∧
     (renderPage ⟨[⟨"p", "f", "pa", "s", "a", "t", "n"⟩], "x"⟩).1 =
        imageTable
          (PageState.records ⟨[⟨"p", "f", "pa", "s", "a", "t", "n"⟩], "x"⟩) ∧
     (renderPage ⟨[⟨"p", "f", "pa", "s", "a", "t", "n"⟩], "x"⟩).1 =
        (renderPage ⟨[⟨"p", "f", "pa", "s", "a", "t", "n"⟩], "y"⟩).1 ∧
     (imageTable
        (PageState.records ⟨[⟨"p", "f", "pa", "s", "a", "t", "n"⟩], "x"⟩)).rows =
        (PageState.records
            ⟨[⟨"p", "f", "pa", "s", "a", "t", "n"⟩], "x"⟩).map renderRow) :=
  imageTable_pure_consumer ⟨[⟨"p", "f", "pa", "s", "a", "t", "n"⟩], "x"⟩
    ⟨[⟨"p", "f", "pa", "s", "a", "t", "n"⟩], "y"⟩ rfl

/-- C9: when `inputFields` lacks a truthy `company_domain`, `main` throws
`Error('Missing company domain')` and the callback is never invoked; with a
truthy `company_domain`, `main` invokes the callback exactly once with
`outputFields.enriched_revenue` an integer between 0 and 999999 inclusive
(`Math.floor` of a `Math.random()` value below one scaled by a million). -/
theorem main_action_outcome (inputFields : List (String × String))
    (rand : ℚ) (h0 : 0 ≤ rand) (h1 : rand < 1) :
    (truthy (inputFields.lookup "company_domain") = false →
      mainAction inputFields rand =
        MainOutcome.threw "Missing company domain") ∧
    (truthy (inputFields.lookup "company_domain") = true →
      ∃ n : Int, mainAction inputFields rand = MainOutcome.callbackOnce n ∧
        0 ≤ n ∧ n ≤ 999999) := by
  constructor
  · intro ht
    simp [mainAction, ht]
  · intro ht
    refine ⟨Int.floor (rand * 1000000), ?_, ?_, ?_⟩
    · simp [mainAction, ht]
    · apply Int.floor_nonneg.mpr
      positivity
    · have hlt : rand * 1000000 < ((1000000 : Int) : ℚ) := by
        push_cast
        nlinarith
      have := Int.floor_lt.mpr hlt
      omega

/-- Witness for C9: a payload with `company_domain = "acme.com"` and a
random draw of one half; and, for the missing-field branch, the same draw
against an empty payload is covered by a second application below. -/
theorem main_action_outcome_witness :
    ((truthy ((([("company_domain", "acme.com")] :
          List (String × String))).lookup "company_domain") = false →
      mainAction [("company_domain", "acme.com")] (1 / 2) =
        MainOutcome.threw "Missing company domain") ∧
     (truthy ((([("company_domain", "acme.com")] :
          List (String × String))).lookup "company_domain") = true →
      ∃ n : Int,
        mainAction [("company_domain", "acme.com")] (1 / 2) =
          MainOutcome.callbackOnce n ∧ 0 ≤ n ∧ n ≤ 999999)) :=
  main_action_outcome [("company_domain", "acme.com")] (1 / 2)
    (by norm_num) (by norm_num)

/-- C10: in a rendered row, an empty `hubspot_folder`, `nearest_heading` or
`alt` is displayed as the em-dash placeholder while an empty `hubspot_path`
stays an empty cell, and non-empty values are displayed verbatim: the cells
are exactly the page, the folder-or-dash, the path verbatim, the
heading-or-dash, the alt-or-dash, and the `Open` link text. -/
theorem renderRow_placeholder_cells (r : ImageRecord) :
    (renderRow r).cells =
      [r.page,
       if r.hubspot_folder = "" then "—" else r.hubspot_folder,
       r.hubspot_path,
       if r.nearest_heading = "" then "—" else r.nearest_heading,
       if r.alt = "" then "—" else r.alt,
       "Open"] :=
  rfl

/-! ## Lemmas about the Heading-Context Resolver -/

theorem lastH_append (last : String) (xs ys : List DocumentNode) :
    lastH last (xs ++ ys) = lastH (lastH last xs) ys := by
  unfold lastH
  exact List.foldl_append updLast last xs ys

theorem foldSnaps_append (last : String) (xs ys : List DocumentNode) :
    foldSnaps last (xs ++ ys) =
      foldSnaps last xs ++ foldSnaps (lastH last xs) ys := by
  induction xs generalizing last with
  | nil => simp [foldSnaps, lastH]
  | cons n ns ih =>
    simp only [List.cons_append, foldSnaps, List.append_eq]
    rw [ih]
    simp [lastH]

mutual

theorem walkNode_eq (last : String) (t : DocumentNode) :
    walkNode last t =
      (lastH last (preorder t), foldSnaps last (preorder t)) := by
  match t with
  | DocumentNode.text s =>
    simp [walkNode, preorder, lastH, foldSnaps, updLast, isHeading, isImage]
  | DocumentNode.element tg a cs =>
    have hc := walkChildren_eq
      (if isHeadingTag tg then trimStr (textContentList cs) else last) cs
    simp only [walkNode, preorder]
    rw [hc]
    simp [lastH, foldSnaps, updLast, isHeading, isImage, headingText,
      textContent]

theorem walkChildren_eq (last : String) (cs : List DocumentNode) :
    walkChildren last cs =
      (lastH last (preorderList cs), foldSnaps last (preorderList cs)) := by
  match cs with
  | [] => simp [walkChildren, preorderList, lastH, foldSnaps]
  | c :: cs2 =>
    have h1 := walkNode_eq last c
    have h2 := walkChildren_eq (walkNode last c).1 cs2
    simp only [walkChildren]
    rw [h2, h1]
    simp only [preorderList, lastH_append, foldSnaps_append]

end

theorem lastHeadingIn_snoc (d : String) (pre : List DocumentNode)
    (n : DocumentNode) :
    lastHeadingIn d (pre ++ [n]) = updLast (lastHeadingIn d pre) n := by
  unfold lastHeadingIn updLast
  rw [List.filter_append]
  by_cases hn : isHeading n = true
  · simp [List.filter, hn, List.getLast?_concat]
  · simp [List.filter, hn]

theorem specSnaps_eq_foldSnaps (d : String) (rest pre : List DocumentNode) :
    specSnaps d pre rest = foldSnaps (lastHeadingIn d pre) rest := by
  induction rest generalizing pre with
  | nil => rfl
  | cons n rest2 ih =>
    simp only [specSnaps, foldSnaps]
    rw [ih (pre ++ [n]), lastHeadingIn_snoc]

/-- C6: the Heading-Context Resolver's single pre-order walk assigns to
every image element the trimmed text of the nearest heading element that
precedes it in the pre-order depth-first traversal of the whole document,
spanning sibling and ancestor boundaries, and the empty string when no
heading precedes the image; on a concrete document, an image before any
heading yields the empty string and an image after the heading `Our Team`
yields `Our Team` despite intervening non-heading siblings. -/
theorem resolver_assigns_nearest_preceding_heading (t : DocumentNode) :
    resolveHeadings t = specNearestHeadings t ∧
    resolveHeadings ourTeamDoc = ["", "Our Team"] := by
  constructor
  · unfold resolveHeadings specNearestHeadings
    rw [walkNode_eq, specSnaps_eq_foldSnaps]
    rfl
  · decide

end HubbmOS
